import Mathlib

/-!
Shallow embedding of the YieldingAsync adapter from
embassy-embedded-hal/src/adapter/yielding_async.rs.

The adapter wraps a driver value and forwards every capability operation
to it, inserting a cooperative yield point after each successful call.
We model the wrapped driver as a record of stateful operations (state
type sigma, error type epsilon); buffers are lists of bytes (Nat).
Every adapter operation returns, besides the driver's outputs, the list
of observable events it produced: forwarded calls and yield points.
u32 arithmetic is modelled as Nat with explicit reduction modulo 2^32
where the Rust code performs wrapping u32 addition.
-/

set_option autoImplicit false

universe u

variable {σ ε : Type}

/-- An observable event of an adapter operation: a forwarded call to the
wrapped driver (with the sub-range bounds recorded for erase calls) or a
cooperative yield point (yield_now). -/
inductive Event where
  | wrappedCall : Event
  | eraseCall : Nat → Nat → Event
  | yield : Event
deriving DecidableEq, Repr

/-- One element of an I2C transaction (embedded_hal_1::i2c::Operation):
a read into a buffer or a write from a buffer. -/
inductive I2cOp where
  | opRead : List Nat → I2cOp
  | opWrite : List Nat → I2cOp
deriving DecidableEq, Repr

/-- The wrapped driver T: one stateful function per capability operation,
plus the declared granularity constants and capacity query.
An operation takes the current driver state and the call arguments and
returns the new state, the caller-visible buffer contents after the call
(for operations that fill caller-supplied buffers), and a result. -/
structure Wrapped (σ ε : Type) where
  i2cRead : σ → Nat → List Nat → σ × List Nat × Except ε Unit
  i2cWrite : σ → Nat → List Nat → σ × Except ε Unit
  i2cWriteRead : σ → Nat → List Nat → List Nat → σ × List Nat × Except ε Unit
  i2cTransaction : σ → Nat → List I2cOp → σ × List I2cOp × Except ε Unit
  spiTransfer : σ → List Nat → List Nat → σ × List Nat × Except ε Unit
  spiTransferInPlace : σ → List Nat → σ × List Nat × Except ε Unit
  spiFlush : σ → σ × Except ε Unit
  spiWrite : σ → List Nat → σ × Except ε Unit
  spiRead : σ → List Nat → σ × List Nat × Except ε Unit
  READ_SIZE : Nat
  norRead : σ → Nat → List Nat → σ × List Nat × Except ε Unit
  capacity : σ → Nat
  WRITE_SIZE : Nat
  ERASE_SIZE : Nat
  norWrite : σ → Nat → List Nat → σ × Except ε Unit
  norErase : σ → Nat → Nat → σ × Except ε Unit

namespace YieldingAsync

/-- I2c::read for YieldingAsync:
self.wrapped.read(address, read).await?; yield_now().await; Ok(()). -/
def i2cRead (w : Wrapped σ ε) (s : σ) (address : Nat) (buf : List Nat) :
    σ × List Nat × List Event × Except ε Unit :=
  match w.i2cRead s address buf with
  | (s1, b1, Except.ok _) => (s1, b1, [Event.wrappedCall, Event.yield], Except.ok ())
  | (s1, b1, Except.error e) => (s1, b1, [Event.wrappedCall], Except.error e)

/-- I2c::write for YieldingAsync:
self.wrapped.write(address, write).await?; yield_now().await; Ok(()). -/
def i2cWrite (w : Wrapped σ ε) (s : σ) (address : Nat) (buf : List Nat) :
    σ × List Event × Except ε Unit :=
  match w.i2cWrite s address buf with
  | (s1, Except.ok _) => (s1, [Event.wrappedCall, Event.yield], Except.ok ())
  | (s1, Except.error e) => (s1, [Event.wrappedCall], Except.error e)

/-- I2c::write_read for YieldingAsync:
self.wrapped.write_read(address, write, read).await?; yield_now().await; Ok(()). -/
def i2cWriteRead (w : Wrapped σ ε) (s : σ) (address : Nat) (wbuf rbuf : List Nat) :
    σ × List Nat × List Event × Except ε Unit :=
  match w.i2cWriteRead s address wbuf rbuf with
  | (s1, b1, Except.ok _) => (s1, b1, [Event.wrappedCall, Event.yield], Except.ok ())
  | (s1, b1, Except.error e) => (s1, b1, [Event.wrappedCall], Except.error e)

/-- I2c::transaction for YieldingAsync:
self.wrapped.transaction(address, operations).await?; yield_now().await; Ok(()). -/
def i2cTransaction (w : Wrapped σ ε) (s : σ) (address : Nat) (ops : List I2cOp) :
    σ × List I2cOp × List Event × Except ε Unit :=
  match w.i2cTransaction s address ops with
  | (s1, o1, Except.ok _) => (s1, o1, [Event.wrappedCall, Event.yield], Except.ok ())
  | (s1, o1, Except.error e) => (s1, o1, [Event.wrappedCall], Except.error e)

/-- SpiBus::transfer for YieldingAsync:
self.wrapped.transfer(read, write).await?; yield_now().await; Ok(()). -/
def spiTransfer (w : Wrapped σ ε) (s : σ) (rbuf wbuf : List Nat) :
    σ × List Nat × List Event × Except ε Unit :=
  match w.spiTransfer s rbuf wbuf with
  | (s1, b1, Except.ok _) => (s1, b1, [Event.wrappedCall, Event.yield], Except.ok ())
  | (s1, b1, Except.error e) => (s1, b1, [Event.wrappedCall], Except.error e)

/-- SpiBus::transfer_in_place for YieldingAsync:
self.wrapped.transfer_in_place(words).await?; yield_now().await; Ok(()). -/
def spiTransferInPlace (w : Wrapped σ ε) (s : σ) (words : List Nat) :
    σ × List Nat × List Event × Except ε Unit :=
  match w.spiTransferInPlace s words with
  | (s1, b1, Except.ok _) => (s1, b1, [Event.wrappedCall, Event.yield], Except.ok ())
  | (s1, b1, Except.error e) => (s1, b1, [Event.wrappedCall], Except.error e)

/-- SpiBusFlush::flush for YieldingAsync:
self.wrapped.flush().await?; yield_now().await; Ok(()). -/
def spiFlush (w : Wrapped σ ε) (s : σ) : σ × List Event × Except ε Unit :=
  match w.spiFlush s with
  | (s1, Except.ok _) => (s1, [Event.wrappedCall, Event.yield], Except.ok ())
  | (s1, Except.error e) => (s1, [Event.wrappedCall], Except.error e)

/-- SpiBusWrite::write for YieldingAsync:
self.wrapped.write(data).await?; yield_now().await; Ok(()). -/
def spiWrite (w : Wrapped σ ε) (s : σ) (data : List Nat) :
    σ × List Event × Except ε Unit :=
  match w.spiWrite s data with
  | (s1, Except.ok _) => (s1, [Event.wrappedCall, Event.yield], Except.ok ())
  | (s1, Except.error e) => (s1, [Event.wrappedCall], Except.error e)

/-- SpiBusRead::read for YieldingAsync:
self.wrapped.read(data).await?; yield_now().await; Ok(()). -/
def spiRead (w : Wrapped σ ε) (s : σ) (data : List Nat) :
    σ × List Nat × List Event × Except ε Unit :=
  match w.spiRead s data with
  | (s1, b1, Except.ok _) => (s1, b1, [Event.wrappedCall, Event.yield], Except.ok ())
  | (s1, b1, Except.error e) => (s1, b1, [Event.wrappedCall], Except.error e)

/-- ReadNorFlash::READ_SIZE for YieldingAsync: equal to T::READ_SIZE. -/
def READ_SIZE (w : Wrapped σ ε) : Nat := w.READ_SIZE

/-- ReadNorFlash::read for YieldingAsync:
self.wrapped.read(offset, bytes).await?; Ok(()).  (No yield here.) -/
def norRead (w : Wrapped σ ε) (s : σ) (offset : Nat) (bytes : List Nat) :
    σ × List Nat × List Event × Except ε Unit :=
  match w.norRead s offset bytes with
  | (s1, b1, Except.ok _) => (s1, b1, [Event.wrappedCall], Except.ok ())
  | (s1, b1, Except.error e) => (s1, b1, [Event.wrappedCall], Except.error e)

/-- ReadNorFlash::capacity for YieldingAsync: self.wrapped.capacity(). -/
def norCapacity (w : Wrapped σ ε) (s : σ) : Nat × List Event :=
  (w.capacity s, [Event.wrappedCall])

/-- NorFlash::WRITE_SIZE for YieldingAsync: equal to T::WRITE_SIZE. -/
def WRITE_SIZE (w : Wrapped σ ε) : Nat := w.WRITE_SIZE

/-- NorFlash::ERASE_SIZE for YieldingAsync: equal to T::ERASE_SIZE. -/
def ERASE_SIZE (w : Wrapped σ ε) : Nat := w.ERASE_SIZE

/-- NorFlash::write for YieldingAsync:
self.wrapped.write(offset, bytes).await?; yield_now().await; Ok(()). -/
def norWrite (w : Wrapped σ ε) (s : σ) (offset : Nat) (bytes : List Nat) :
    σ × List Event × Except ε Unit :=
  match w.norWrite s offset bytes with
  | (s1, Except.ok _) => (s1, [Event.wrappedCall, Event.yield], Except.ok ())
  | (s1, Except.error e) => (s1, [Event.wrappedCall], Except.error e)

end YieldingAsync

/-- The loop body of NorFlash::erase for YieldingAsync:
for from in (from..to).step_by(T::ERASE_SIZE) {
    let to = core::cmp::min(from + T::ERASE_SIZE as u32, to);
    self.wrapped.erase(from, to).await?;
    yield_now().await;
}
Ok(())
The u32 range iterator visits f, f + E, f + 2E, ... while the value is
below to (and representable); the sub-range end is computed with a
truncating usize-to-u32 cast of ERASE_SIZE and wrapping u32 addition,
modelled as explicit reduction modulo 2^32.  fuel is a structural
termination counter; fuel = to - f suffices because each iteration
advances f by E >= 1 (Rust step_by panics on a zero step, so E = 0
never occurs in a run that returns). -/
def eraseGo (we : σ → Nat → Nat → σ × Except ε Unit) (E : Nat) :
    Nat → σ → Nat → Nat → σ × List Event × Except ε Unit
  | 0, s, _, _ => (s, [], Except.ok ())
  | fuel + 1, s, f, tEnd =>
    if f < tEnd then
      let t := min ((f + E % 4294967296) % 4294967296) tEnd
      match we s f t with
      | (s1, Except.ok _) =>
        let r := eraseGo we E fuel s1 (f + E) tEnd
        (r.1, Event.eraseCall f t :: Event.yield :: r.2.1, r.2.2)
      | (s1, Except.error e) => (s1, [Event.eraseCall f t], Except.error e)
    else (s, [], Except.ok ())

/-- NorFlash::erase for YieldingAsync, chunking the range [f, to) by the
wrapped driver's ERASE_SIZE. -/
def YieldingAsync.erase (w : Wrapped σ ε) (s : σ) (f tEnd : Nat) :
    σ × List Event × Except ε Unit :=
  eraseGo w.norErase w.ERASE_SIZE (tEnd - f) s f tEnd

/-- The forwarded erase calls of a trace, in order. -/
def callsOf : List Event → List (Nat × Nat)
  | [] => []
  | Event.eraseCall a b :: r => (a, b) :: callsOf r
  | _ :: r => callsOf r

/-- The number of yield points in a trace. -/
def yieldsOf : List Event → Nat
  | [] => 0
  | Event.yield :: r => yieldsOf r + 1
  | _ :: r => yieldsOf r

/-- The trace consisting of the given erase calls, each immediately
followed by one yield point. -/
def withYields : List (Nat × Nat) → List Event
  | [] => []
  | p :: r => Event.eraseCall p.1 p.2 :: Event.yield :: withYields r

/-- ceil((to - f) / E): the number of sub-ranges of an erase request
over [f, to) at granularity E (0 if the range is empty). -/
def numSubranges (E f tEnd : Nat) : Nat := (tEnd - f + E - 1) / E

/-- The sub-range sequence the specification describes for an erase over
[f, to) at granularity E: ceil((to - f)/E) sub-ranges, the i-th
(0-indexed) spanning from f + i*E to min (f + (i+1)*E) to. -/
def specSubranges (E f tEnd : Nat) : List (Nat × Nat) :=
  (List.range (numSubranges E f tEnd)).map fun i => (f + i * E, min (f + (i + 1) * E) tEnd)

/-- The event suffix a forwarding adapter method appends after the
wrapped call: one yield on success, nothing on failure. -/
def yieldSuffix (r : Except ε Unit) : List Event :=
  match r with
  | Except.ok _ => [Event.yield]
  | Except.error _ => []

/-- 1 if the wrapped call succeeded, 0 if it failed. -/
def yieldsOnOk (r : Except ε Unit) : Nat :=
  match r with
  | Except.ok _ => 1
  | Except.error _ => 0

/-- Drop the event trace from a buffered operation's output. -/
def sansTrace3 {ρ : Type} (x : σ × ρ × List Event × Except ε Unit) :
    σ × ρ × Except ε Unit :=
  (x.1, x.2.1, x.2.2.2)

/-- Drop the event trace from an unbuffered operation's output. -/
def sansTrace2 (x : σ × List Event × Except ε Unit) : σ × Except ε Unit :=
  (x.1, x.2.2)

/-- A concrete wrapped driver whose operations all succeed and leave the
state and buffers unchanged, with the FakeFlash test fixture's
granularities (READ_SIZE 1, WRITE_SIZE 4, ERASE_SIZE 128). -/
def unitWrapped : Wrapped Unit Unit where
  i2cRead := fun s _ b => (s, b, Except.ok ())
  i2cWrite := fun s _ _ => (s, Except.ok ())
  i2cWriteRead := fun s _ _ b => (s, b, Except.ok ())
  i2cTransaction := fun s _ o => (s, o, Except.ok ())
  spiTransfer := fun s b _ => (s, b, Except.ok ())
  spiTransferInPlace := fun s b => (s, b, Except.ok ())
  spiFlush := fun s => (s, Except.ok ())
  spiWrite := fun s _ => (s, Except.ok ())
  spiRead := fun s b => (s, b, Except.ok ())
  READ_SIZE := 1
  norRead := fun s _ b => (s, b, Except.ok ())
  capacity := fun _ => 0
  WRITE_SIZE := 4
  ERASE_SIZE := 128
  norWrite := fun s _ _ => (s, Except.ok ())
  norErase := fun s _ _ => (s, Except.ok ())

/-- A recording wrapped driver in the style of the FakeFlash test
fixture: its erase appends the received (from, to) pair to the state and
succeeds; the granularity E is a parameter. -/
def recWrapped (E : Nat) : Wrapped (List (Nat × Nat)) Unit where
  i2cRead := fun s _ b => (s, b, Except.ok ())
  i2cWrite := fun s _ _ => (s, Except.ok ())
  i2cWriteRead := fun s _ _ b => (s, b, Except.ok ())
  i2cTransaction := fun s _ o => (s, o, Except.ok ())
  spiTransfer := fun s b _ => (s, b, Except.ok ())
  spiTransferInPlace := fun s b => (s, b, Except.ok ())
  spiFlush := fun s => (s, Except.ok ())
  spiWrite := fun s _ => (s, Except.ok ())
  spiRead := fun s b => (s, b, Except.ok ())
  READ_SIZE := 1
  norRead := fun s _ b => (s, b, Except.ok ())
  capacity := fun _ => 0
  WRITE_SIZE := 4
  ERASE_SIZE := E
  norWrite := fun s _ _ => (s, Except.ok ())
  norErase := fun s a b => (s ++ [(a, b)], Except.ok ())

/-- A recording wrapped driver whose erase fails with error e on its
k-th invocation (1-indexed) and succeeds on every other one. -/
def failWrapped (E k : Nat) (e : ε) : Wrapped (List (Nat × Nat)) ε where
  i2cRead := fun s _ b => (s, b, Except.ok ())
  i2cWrite := fun s _ _ => (s, Except.ok ())
  i2cWriteRead := fun s _ _ b => (s, b, Except.ok ())
  i2cTransaction := fun s _ o => (s, o, Except.ok ())
  spiTransfer := fun s b _ => (s, b, Except.ok ())
  spiTransferInPlace := fun s b => (s, b, Except.ok ())
  spiFlush := fun s => (s, Except.ok ())
  spiWrite := fun s _ => (s, Except.ok ())
  spiRead := fun s b => (s, b, Except.ok ())
  READ_SIZE := 1
  norRead := fun s _ b => (s, b, Except.ok ())
  capacity := fun _ => 0
  WRITE_SIZE := 4
  ERASE_SIZE := E
  norWrite := fun s _ _ => (s, Except.ok ())
  norErase := fun s a b =>
    (s ++ [(a, b)], if s.length + 1 = k then Except.error e else Except.ok ())


@[simp] theorem callsOf_nil : callsOf [] = [] := rfl

@[simp] theorem callsOf_cons_eraseCall (a b : Nat) (r : List Event) :
    callsOf (Event.eraseCall a b :: r) = (a, b) :: callsOf r := rfl

@[simp] theorem callsOf_cons_yield (r : List Event) :
    callsOf (Event.yield :: r) = callsOf r := rfl

@[simp] theorem callsOf_cons_wrappedCall (r : List Event) :
    callsOf (Event.wrappedCall :: r) = callsOf r := rfl

@[simp] theorem yieldsOf_nil : yieldsOf [] = 0 := rfl

@[simp] theorem yieldsOf_cons_yield (r : List Event) :
    yieldsOf (Event.yield :: r) = yieldsOf r + 1 := rfl

@[simp] theorem yieldsOf_cons_eraseCall (a b : Nat) (r : List Event) :
    yieldsOf (Event.eraseCall a b :: r) = yieldsOf r := rfl

@[simp] theorem yieldsOf_cons_wrappedCall (r : List Event) :
    yieldsOf (Event.wrappedCall :: r) = yieldsOf r := rfl

@[simp] theorem withYields_nil : withYields [] = [] := rfl

@[simp] theorem withYields_cons (p : Nat × Nat) (l : List (Nat × Nat)) :
    withYields (p :: l) = Event.eraseCall p.1 p.2 :: Event.yield :: withYields l := rfl

theorem callsOf_withYields (l : List (Nat × Nat)) : callsOf (withYields l) = l := by
  induction l with
  | nil => simp
  | cons p r ih => simp [ih]

theorem yieldsOf_withYields (l : List (Nat × Nat)) : yieldsOf (withYields l) = l.length := by
  induction l with
  | nil => simp
  | cons p r ih => simp [ih]

theorem numSubranges_of_le {E f tEnd : Nat} (h : tEnd ≤ f) : numSubranges E f tEnd = 0 := by
  unfold numSubranges
  have hd : tEnd - f = 0 := by omega
  rw [hd]
  rcases Nat.eq_zero_or_pos E with hE | hE
  · simp [hE]
  · exact Nat.div_eq_of_lt (by omega)

theorem numSubranges_step {E f tEnd : Nat} (hE : 0 < E) (h : f < tEnd) :
    numSubranges E f tEnd = numSubranges E (f + E) tEnd + 1 := by
  unfold numSubranges
  have h1 : tEnd - f + E - 1 = (tEnd - f - 1) + E := by omega
  rw [h1, Nat.add_div_right _ hE]
  rcases Nat.lt_or_ge f (tEnd - E) with hc | hc
  · have h2 : tEnd - (f + E) + E - 1 = (tEnd - (f + E) - 1) + E := by omega
    rw [h2, Nat.add_div_right _ hE]
    have h3 : tEnd - (f + E) - 1 = tEnd - f - 1 - E := by omega
    have h4 : tEnd - f - 1 = (tEnd - f - 1 - E) + E := by omega
    rw [h3, h4, Nat.add_div_right _ hE]
    have h5 : tEnd - f - 1 - E + E - E = tEnd - f - 1 - E := by omega
    rw [h5]
  · have h2 : tEnd - (f + E) = 0 := by omega
    rw [h2]
    have h3 : (tEnd - f - 1) / E = 0 := Nat.div_eq_of_lt (by omega)
    have h4 : (0 + E - 1) / E = 0 := Nat.div_eq_of_lt (by omega)
    rw [h3, h4]

theorem lt_of_numSubranges_pos {E f tEnd : Nat} (h : 0 < numSubranges E f tEnd) :
    f < tEnd := by
  by_contra hc
  rw [numSubranges_of_le (by omega)] at h
  omega

theorem specSubranges_step {E f tEnd : Nat} (hE : 0 < E) (h : f < tEnd) :
    specSubranges E f tEnd = (f, min (f + E) tEnd) :: specSubranges E (f + E) tEnd := by
  unfold specSubranges
  rw [numSubranges_step hE h, List.range_succ_eq_map, List.map_cons, List.map_map]
  congr 1
  · simp
  · refine List.map_congr_left (fun i _ => ?_)
    simp only [Function.comp_apply, Nat.succ_eq_add_one]
    have e1 : f + (i + 1) * E = f + E + i * E := by ring
    have e2 : f + (i + 1 + 1) * E = f + E + (i + 1) * E := by ring
    rw [e1, e2]


theorem specSubranges_of_le {E f tEnd : Nat} (h : tEnd ≤ f) : specSubranges E f tEnd = [] := by
  unfold specSubranges
  rw [numSubranges_of_le h]
  simp

theorem eraseGo_ok_shape {σ ε : Type} (we : σ → Nat → Nat → σ × Except ε Unit) (E : Nat)
    (hok : ∀ s a b, (we s a b).2 = Except.ok ()) (hE : 0 < E) :
    ∀ fuel f tEnd s, tEnd - f ≤ fuel →
      (eraseGo we E fuel s f tEnd).2.1 =
          withYields (callsOf (eraseGo we E fuel s f tEnd).2.1) ∧
        (eraseGo we E fuel s f tEnd).2.2 = Except.ok () ∧
        (callsOf (eraseGo we E fuel s f tEnd).2.1).length = numSubranges E f tEnd := by
  intro fuel
  induction fuel with
  | zero =>
    intro f tEnd s hfu
    simp [eraseGo, numSubranges_of_le (show tEnd ≤ f by omega)]
  | succ fuel ih =>
    intro f tEnd s hfu
    by_cases h : f < tEnd
    · rcases hwe : we s f (min ((f + E % 4294967296) % 4294967296) tEnd) with ⟨s1, r⟩
      have hr : r = Except.ok () := by
        have h2 := hok s f (min ((f + E % 4294967296) % 4294967296) tEnd)
        rw [hwe] at h2
        exact h2
      subst hr
      obtain ⟨ih1, ih2, ih3⟩ := ih (f + E) tEnd s1 (by omega)
      simp only [eraseGo, h, if_true, hwe]
      refine ⟨?_, ih2, ?_⟩
      · simp [← ih1]
      · simp [ih3, (numSubranges_step hE h).symm]
    · simp [eraseGo, h, numSubranges_of_le (show tEnd ≤ f by omega)]

theorem eraseGo_calls_spec {σ ε : Type} (we : σ → Nat → Nat → σ × Except ε Unit) (E : Nat)
    (hok : ∀ s a b, (we s a b).2 = Except.ok ()) (hE : 0 < E) :
    ∀ fuel f tEnd s, tEnd - f ≤ fuel →
      (∀ i, i < numSubranges E f tEnd → f + i * E + E ≤ 4294967295) →
      callsOf (eraseGo we E fuel s f tEnd).2.1 = specSubranges E f tEnd := by
  intro fuel
  induction fuel with
  | zero =>
    intro f tEnd s hfu hwrap
    simp [eraseGo, specSubranges_of_le (show tEnd ≤ f by omega)]
  | succ fuel ih =>
    intro f tEnd s hfu hwrap
    by_cases h : f < tEnd
    · have hN : numSubranges E f tEnd = numSubranges E (f + E) tEnd + 1 :=
        numSubranges_step hE h
      have hfE : f + E ≤ 4294967295 := by
        have h0 := hwrap 0 (by omega)
        simpa using h0
      have hEmod : E % 4294967296 = E := Nat.mod_eq_of_lt (by omega)
      have hfEmod : (f + E) % 4294967296 = f + E := Nat.mod_eq_of_lt (by omega)
      have hwrap2 : ∀ i, i < numSubranges E (f + E) tEnd →
          f + E + i * E + E ≤ 4294967295 := by
        intro i hi
        have hw := hwrap (i + 1) (by omega)
        have e1 : f + (i + 1) * E = f + E + i * E := by ring
        rw [e1] at hw
        exact hw
      rcases hwe : we s f (min (f + E) tEnd) with ⟨s1, r⟩
      have hr : r = Except.ok () := by
        have h2 := hok s f (min (f + E) tEnd)
        rw [hwe] at h2
        exact h2
      subst hr
      have ihc := ih (f + E) tEnd s1 (by omega) hwrap2
      simp only [eraseGo, h, if_true, hEmod, hfEmod, hwe]
      simp [ihc, (specSubranges_step hE h).symm]
    · simp [eraseGo, h, specSubranges_of_le (show tEnd ≤ f by omega)]


theorem eraseGo_bounds {σ ε : Type} (we : σ → Nat → Nat → σ × Except ε Unit) (E : Nat)
    (hE : 0 < E) :
    ∀ fuel f tEnd s, tEnd - f ≤ fuel →
      (∀ i, i < numSubranges E f tEnd → f + i * E + E ≤ 4294967295) →
      ∀ p ∈ callsOf (eraseGo we E fuel s f tEnd).2.1,
        p.2 = min (p.1 + E) tEnd ∧ p.1 < p.2 ∧ p.2 ≤ tEnd := by
  intro fuel
  induction fuel with
  | zero =>
    intro f tEnd s hfu hwrap
    simp [eraseGo]
  | succ fuel ih =>
    intro f tEnd s hfu hwrap
    by_cases h : f < tEnd
    · have hN : numSubranges E f tEnd = numSubranges E (f + E) tEnd + 1 :=
        numSubranges_step hE h
      have hfE : f + E ≤ 4294967295 := by
        have h0 := hwrap 0 (by omega)
        simpa using h0
      have hEmod : E % 4294967296 = E := Nat.mod_eq_of_lt (by omega)
      have hfEmod : (f + E) % 4294967296 = f + E := Nat.mod_eq_of_lt (by omega)
      have hwrap2 : ∀ i, i < numSubranges E (f + E) tEnd →
          f + E + i * E + E ≤ 4294967295 := by
        intro i hi
        have hw := hwrap (i + 1) (by omega)
        have e1 : f + (i + 1) * E = f + E + i * E := by ring
        rw [e1] at hw
        exact hw
      have hhead : (f, min (f + E) tEnd).2 = min ((f, min (f + E) tEnd).1 + E) tEnd ∧
          (f, min (f + E) tEnd).1 < (f, min (f + E) tEnd).2 ∧
          (f, min (f + E) tEnd).2 ≤ tEnd := by
        refine ⟨rfl, ?_, min_le_right _ _⟩
        exact lt_min (by omega) h
      rcases hwe : we s f (min (f + E) tEnd) with ⟨s1, r⟩
      cases r with
      | ok u =>
        simp only [eraseGo, h, if_true, hEmod, hfEmod, hwe]
        intro p hp
        simp only [callsOf_cons_eraseCall, callsOf_cons_yield, List.mem_cons] at hp
        rcases hp with hp | hp
        · subst hp
          exact hhead
        · exact ih (f + E) tEnd s1 (by omega) hwrap2 p hp
      | error e =>
        simp only [eraseGo, h, if_true, hEmod, hfEmod, hwe]
        intro p hp
        simp only [callsOf_cons_eraseCall, callsOf_nil, List.mem_singleton] at hp
        subst hp
        exact hhead
    · simp [eraseGo, h]

theorem eraseGo_error_origin {σ ε : Type} (we : σ → Nat → Nat → σ × Except ε Unit) (E : Nat) :
    ∀ fuel f tEnd s e, (eraseGo we E fuel s f tEnd).2.2 = Except.error e →
      ∃ s0 a b, (we s0 a b).2 = Except.error e := by
  intro fuel
  induction fuel with
  | zero =>
    intro f tEnd s e herr
    simp [eraseGo] at herr
  | succ fuel ih =>
    intro f tEnd s e herr
    by_cases h : f < tEnd
    · rcases hwe : we s f (min ((f + E % 4294967296) % 4294967296) tEnd) with ⟨s1, r⟩
      cases r with
      | ok u =>
        simp only [eraseGo, h, if_true, hwe] at herr
        exact ih (f + E) tEnd s1 e herr
      | error e1 =>
        simp only [eraseGo, h, if_true, hwe] at herr
        refine ⟨s, f, min ((f + E % 4294967296) % 4294967296) tEnd, ?_⟩
        rw [hwe]
        simpa using herr
    · simp [eraseGo, h] at herr


theorem failGo {ε : Type} (e : ε) (E k : Nat) (hE : 0 < E) :
    ∀ fuel f tEnd s, tEnd - f ≤ fuel → s.length < k →
      k - s.length ≤ numSubranges E f tEnd →
      (eraseGo (failWrapped E k e).norErase E fuel s f tEnd).2.2 = Except.error e ∧
      (callsOf (eraseGo (failWrapped E k e).norErase E fuel s f tEnd).2.1).length =
        k - s.length ∧
      yieldsOf (eraseGo (failWrapped E k e).norErase E fuel s f tEnd).2.1 =
        k - s.length - 1 ∧
      (∃ m a b,
        (eraseGo (failWrapped E k e).norErase E fuel s f tEnd).2.1 =
          m ++ [Event.eraseCall a b]) ∧
      (eraseGo (failWrapped E k e).norErase E fuel s f tEnd).1 =
        s ++ callsOf (eraseGo (failWrapped E k e).norErase E fuel s f tEnd).2.1 := by
  intro fuel
  induction fuel with
  | zero =>
    intro f tEnd s hfu hk hkN
    rw [numSubranges_of_le (show tEnd ≤ f by omega)] at hkN
    omega
  | succ fuel ih =>
    intro f tEnd s hfu hk hkN
    have h : f < tEnd := by
      by_contra hc
      rw [numSubranges_of_le (by omega)] at hkN
      omega
    have hN : numSubranges E f tEnd = numSubranges E (f + E) tEnd + 1 :=
      numSubranges_step hE h
    rcases hwe : (failWrapped E k e).norErase s f
        (min ((f + E % 4294967296) % 4294967296) tEnd) with ⟨s1, r⟩
    have hcopy := hwe
    simp only [failWrapped, Prod.mk.injEq] at hcopy
    obtain ⟨hs1, hr⟩ := hcopy
    by_cases hkk : s.length + 1 = k
    · rw [if_pos hkk] at hr
      subst hr
      simp only [eraseGo, h, if_true, hwe]
      refine ⟨trivial, ?_, ?_, ⟨[], _, _, rfl⟩, ?_⟩
      · simp only [callsOf_cons_eraseCall, callsOf_nil, List.length_cons,
          List.length_nil]
        omega
      · simp only [yieldsOf_cons_eraseCall, yieldsOf_nil]
        omega
      · simp only [callsOf_cons_eraseCall, callsOf_nil]
        exact hs1.symm
    · rw [if_neg hkk] at hr
      subst hr
      have hlen : s1.length = s.length + 1 := by
        rw [← hs1]
        simp
      obtain ⟨ih1, ih2, ih3, ⟨m, a, b, ih4⟩, ih5⟩ :=
        ih (f + E) tEnd s1 (by omega) (by omega) (by omega)
      simp only [eraseGo, h, if_true, hwe]
      refine ⟨ih1, ?_, ?_, ?_, ?_⟩
      · simp only [callsOf_cons_eraseCall, callsOf_cons_yield, List.length_cons]
        rw [ih2]
        omega
      · simp only [yieldsOf_cons_eraseCall, yieldsOf_cons_yield]
        rw [ih3]
        omega
      · refine ⟨Event.eraseCall f (min ((f + E % 4294967296) % 4294967296) tEnd) ::
          Event.yield :: m, a, b, ?_⟩
        rw [ih4]
        rfl
      · simp only [callsOf_cons_eraseCall, callsOf_cons_yield]
        rw [ih5, ← hs1]
        simp


/-- Claim C3 (confirmed): for every non-erase capability operation and any
arguments, the adapter's result — success value or failure value, including
effects on caller-supplied buffers and on the wrapped driver state — equals
exactly what invoking the same operation directly on the wrapped driver
would produce. -/
theorem passthrough_equivalence {σ ε : Type} (w : Wrapped σ ε) (s : σ)
    (address offset : Nat) (buf wbuf rbuf words data bytes : List Nat)
    (ops : List I2cOp) :
    sansTrace3 (YieldingAsync.i2cRead w s address buf) = w.i2cRead s address buf ∧
    sansTrace2 (YieldingAsync.i2cWrite w s address buf) = w.i2cWrite s address buf ∧
    sansTrace3 (YieldingAsync.i2cWriteRead w s address wbuf rbuf) =
      w.i2cWriteRead s address wbuf rbuf ∧
    sansTrace3 (YieldingAsync.i2cTransaction w s address ops) =
      w.i2cTransaction s address ops ∧
    sansTrace3 (YieldingAsync.spiTransfer w s rbuf wbuf) = w.spiTransfer s rbuf wbuf ∧
    sansTrace3 (YieldingAsync.spiTransferInPlace w s words) =
      w.spiTransferInPlace s words ∧
    sansTrace2 (YieldingAsync.spiFlush w s) = w.spiFlush s ∧
    sansTrace2 (YieldingAsync.spiWrite w s data) = w.spiWrite s data ∧
    sansTrace3 (YieldingAsync.spiRead w s data) = w.spiRead s data ∧
    sansTrace3 (YieldingAsync.norRead w s offset bytes) = w.norRead s offset bytes ∧
    sansTrace2 (YieldingAsync.norWrite w s offset bytes) = w.norWrite s offset bytes ∧
    (YieldingAsync.norCapacity w s).1 = w.capacity s := by
  refine ⟨?_, ?_, ?_, ?_, ?_, ?_, ?_, ?_, ?_, ?_, ?_, rfl⟩
  · rcases h : w.i2cRead s address buf with ⟨s1, b1, r⟩
    cases r <;> simp [YieldingAsync.i2cRead, sansTrace3, h]
  · rcases h : w.i2cWrite s address buf with ⟨s1, r⟩
    cases r <;> simp [YieldingAsync.i2cWrite, sansTrace2, h]
  · rcases h : w.i2cWriteRead s address wbuf rbuf with ⟨s1, b1, r⟩
    cases r <;> simp [YieldingAsync.i2cWriteRead, sansTrace3, h]
  · rcases h : w.i2cTransaction s address ops with ⟨s1, o1, r⟩
    cases r <;> simp [YieldingAsync.i2cTransaction, sansTrace3, h]
  · rcases h : w.spiTransfer s rbuf wbuf with ⟨s1, b1, r⟩
    cases r <;> simp [YieldingAsync.spiTransfer, sansTrace3, h]
  · rcases h : w.spiTransferInPlace s words with ⟨s1, b1, r⟩
    cases r <;> simp [YieldingAsync.spiTransferInPlace, sansTrace3, h]
  · rcases h : w.spiFlush s with ⟨s1, r⟩
    cases r <;> simp [YieldingAsync.spiFlush, sansTrace2, h]
  · rcases h : w.spiWrite s data with ⟨s1, r⟩
    cases r <;> simp [YieldingAsync.spiWrite, sansTrace2, h]
  · rcases h : w.spiRead s data with ⟨s1, b1, r⟩
    cases r <;> simp [YieldingAsync.spiRead, sansTrace3, h]
  · rcases h : w.norRead s offset bytes with ⟨s1, b1, r⟩
    cases r <;> simp [YieldingAsync.norRead, sansTrace3, h]
  · rcases h : w.norWrite s offset bytes with ⟨s1, r⟩
    cases r <;> simp [YieldingAsync.norWrite, sansTrace2, h]

/-- Claim C4 counterexample: a successful ReadNorFlash::read through the
adapter is a single non-chunked operation that performs zero yields, not
one, so the claim as stated over every single non-chunked operation fails
on the read-only storage path. -/
theorem single_op_yield_counterexample :
    (YieldingAsync.norRead unitWrapped () 0 [7]).2.2.2 = Except.ok () ∧
      yieldsOf (YieldingAsync.norRead unitWrapped () 0 [7]).2.2.1 = 0 :=
  ⟨rfl, rfl⟩

/-- Claim C4 (amended): for every single non-chunked adapter operation
other than the read-only storage operations (ReadNorFlash::read and
capacity), the trace is the forwarded wrapped call followed by exactly one
yield when the wrapped call succeeds, and by no yield when it fails. -/
theorem single_op_yield_count {σ ε : Type} (w : Wrapped σ ε) (s : σ)
    (address offset : Nat) (buf wbuf rbuf words data bytes : List Nat)
    (ops : List I2cOp) :
    (YieldingAsync.i2cRead w s address buf).2.2.1 =
      Event.wrappedCall :: yieldSuffix (w.i2cRead s address buf).2.2 ∧
    (YieldingAsync.i2cWrite w s address buf).2.1 =
      Event.wrappedCall :: yieldSuffix (w.i2cWrite s address buf).2 ∧
    (YieldingAsync.i2cWriteRead w s address wbuf rbuf).2.2.1 =
      Event.wrappedCall :: yieldSuffix (w.i2cWriteRead s address wbuf rbuf).2.2 ∧
    (YieldingAsync.i2cTransaction w s address ops).2.2.1 =
      Event.wrappedCall :: yieldSuffix (w.i2cTransaction s address ops).2.2 ∧
    (YieldingAsync.spiTransfer w s rbuf wbuf).2.2.1 =
      Event.wrappedCall :: yieldSuffix (w.spiTransfer s rbuf wbuf).2.2 ∧
    (YieldingAsync.spiTransferInPlace w s words).2.2.1 =
      Event.wrappedCall :: yieldSuffix (w.spiTransferInPlace s words).2.2 ∧
    (YieldingAsync.spiFlush w s).2.1 =
      Event.wrappedCall :: yieldSuffix (w.spiFlush s).2 ∧
    (YieldingAsync.spiWrite w s data).2.1 =
      Event.wrappedCall :: yieldSuffix (w.spiWrite s data).2 ∧
    (YieldingAsync.spiRead w s data).2.2.1 =
      Event.wrappedCall :: yieldSuffix (w.spiRead s data).2.2 ∧
    (YieldingAsync.norWrite w s offset bytes).2.1 =
      Event.wrappedCall :: yieldSuffix (w.norWrite s offset bytes).2 := by
  refine ⟨?_, ?_, ?_, ?_, ?_, ?_, ?_, ?_, ?_, ?_⟩
  · rcases h : w.i2cRead s address buf with ⟨s1, b1, r⟩
    cases r <;> simp [YieldingAsync.i2cRead, yieldSuffix, h]
  · rcases h : w.i2cWrite s address buf with ⟨s1, r⟩
    cases r <;> simp [YieldingAsync.i2cWrite, yieldSuffix, h]
  · rcases h : w.i2cWriteRead s address wbuf rbuf with ⟨s1, b1, r⟩
    cases r <;> simp [YieldingAsync.i2cWriteRead, yieldSuffix, h]
  · rcases h : w.i2cTransaction s address ops with ⟨s1, o1, r⟩
    cases r <;> simp [YieldingAsync.i2cTransaction, yieldSuffix, h]
  · rcases h : w.spiTransfer s rbuf wbuf with ⟨s1, b1, r⟩
    cases r <;> simp [YieldingAsync.spiTransfer, yieldSuffix, h]
  · rcases h : w.spiTransferInPlace s words with ⟨s1, b1, r⟩
    cases r <;> simp [YieldingAsync.spiTransferInPlace, yieldSuffix, h]
  · rcases h : w.spiFlush s with ⟨s1, r⟩
    cases r <;> simp [YieldingAsync.spiFlush, yieldSuffix, h]
  · rcases h : w.spiWrite s data with ⟨s1, r⟩
    cases r <;> simp [YieldingAsync.spiWrite, yieldSuffix, h]
  · rcases h : w.spiRead s data with ⟨s1, b1, r⟩
    cases r <;> simp [YieldingAsync.spiRead, yieldSuffix, h]
  · rcases h : w.norWrite s offset bytes with ⟨s1, r⟩
    cases r <;> simp [YieldingAsync.norWrite, yieldSuffix, h]

/-- Claim C6 (confirmed): the adapter's declared READ_SIZE, WRITE_SIZE and
ERASE_SIZE constants equal the wrapped driver's corresponding constants,
and the adapter's capacity returns exactly the wrapped driver's
capacity. -/
theorem granularity_capacity_forwarding {σ ε : Type} (w : Wrapped σ ε) (s : σ) :
    YieldingAsync.READ_SIZE w = w.READ_SIZE ∧
      YieldingAsync.WRITE_SIZE w = w.WRITE_SIZE ∧
      YieldingAsync.ERASE_SIZE w = w.ERASE_SIZE ∧
      (YieldingAsync.norCapacity w s).1 = w.capacity s :=
  ⟨rfl, rfl, rfl, rfl⟩

/-- Claim C8 (confirmed): a storage read (ReadNorFlash::read) and a
capacity query are forwarded without a yield, while the bus read
operations (I2C read, SPI read) yield exactly once on success and not on
failure. -/
theorem read_path_yield_asymmetry {σ ε : Type} (w : Wrapped σ ε) (s : σ)
    (address offset : Nat) (buf data bytes : List Nat) :
    (YieldingAsync.norRead w s offset bytes).2.2.1 = [Event.wrappedCall] ∧
      yieldsOf (YieldingAsync.norRead w s offset bytes).2.2.1 = 0 ∧
      yieldsOf (YieldingAsync.norCapacity w s).2 = 0 ∧
      yieldsOf (YieldingAsync.i2cRead w s address buf).2.2.1 =
        yieldsOnOk (w.i2cRead s address buf).2.2 ∧
      yieldsOf (YieldingAsync.spiRead w s data).2.2.1 =
        yieldsOnOk (w.spiRead s data).2.2 := by
  refine ⟨?_, ?_, rfl, ?_, ?_⟩
  · rcases h : w.norRead s offset bytes with ⟨s1, b1, r⟩
    cases r <;> simp [YieldingAsync.norRead, h]
  · rcases h : w.norRead s offset bytes with ⟨s1, b1, r⟩
    cases r <;> simp [YieldingAsync.norRead, h]
  · rcases h : w.i2cRead s address buf with ⟨s1, b1, r⟩
    cases r <;> simp [YieldingAsync.i2cRead, yieldsOnOk, h]
  · rcases h : w.spiRead s data with ⟨s1, b1, r⟩
    cases r <;> simp [YieldingAsync.spiRead, yieldsOnOk, h]

/-- Claim C9 (confirmed): an erase request with an empty or inverted range
makes zero calls to the wrapped driver, performs zero yields, and returns
success, leaving the wrapped driver state untouched. -/
theorem erase_empty_range {σ ε : Type} (w : Wrapped σ ε) (s : σ) (f tEnd : Nat)
    (h : tEnd ≤ f) :
    YieldingAsync.erase w s f tEnd = (s, [], Except.ok ()) ∧
      callsOf (YieldingAsync.erase w s f tEnd).2.1 = [] ∧
      yieldsOf (YieldingAsync.erase w s f tEnd).2.1 = 0 := by
  unfold YieldingAsync.erase
  have h0 : tEnd - f = 0 := by omega
  rw [h0]
  exact ⟨rfl, rfl, rfl⟩

/-- Claim C9 witness: the empty-range theorem applied to the concrete
always-succeeding driver with an inverted range. -/
theorem erase_empty_range_witness :
    YieldingAsync.erase unitWrapped () 5 3 = ((), [], Except.ok ()) ∧
      callsOf (YieldingAsync.erase unitWrapped () 5 3).2.1 = [] ∧
      yieldsOf (YieldingAsync.erase unitWrapped () 5 3).2.1 = 0 :=
  erase_empty_range unitWrapped () 5 3 (by decide)


/-- Claim C1 counterexample: with ERASE_SIZE 128 and the erase request
over the range from 4294967290 to 4294967295, the single forwarded call is
(4294967290, 122) — the sub-range end wrapped around modulo 2^32 — and not
the (4294967290, 4294967295) sub-range the claim specifies, so the claim
as stated over every erase request fails. -/
theorem erase_exact_partition_counterexample :
    callsOf (YieldingAsync.erase (recWrapped 128) [] 4294967290 4294967295).2.1 =
        [(4294967290, 122)] ∧
      specSubranges 128 4294967290 4294967295 = [(4294967290, 4294967295)] ∧
      callsOf (YieldingAsync.erase (recWrapped 128) [] 4294967290 4294967295).2.1 ≠
        specSubranges 128 4294967290 4294967295 := by
  refine ⟨by decide, by decide, by decide⟩

/-- Claim C1 (amended): for every erase request over a non-empty range
with E = ERASE_SIZE > 0 in which every wrapped erase call succeeds and
every sub-range start g satisfies g + E <= 2^32 - 1, the adapter forwards
exactly ceil((tEnd - f) / E) consecutive erase calls, the i-th (0-indexed)
spanning from f + i*E to min (f + (i+1)*E) tEnd, covering the range with
no gaps or overlaps. -/
theorem erase_exact_partition {σ ε : Type} (w : Wrapped σ ε) (s : σ) (f tEnd : Nat)
    (hE : 0 < w.ERASE_SIZE) (_hlt : f < tEnd)
    (hok : ∀ s0 a b, (w.norErase s0 a b).2 = Except.ok ())
    (hwrap : ∀ i, i < numSubranges w.ERASE_SIZE f tEnd →
      f + i * w.ERASE_SIZE + w.ERASE_SIZE ≤ 4294967295) :
    callsOf (YieldingAsync.erase w s f tEnd).2.1 =
        specSubranges w.ERASE_SIZE f tEnd ∧
      (callsOf (YieldingAsync.erase w s f tEnd).2.1).length =
        numSubranges w.ERASE_SIZE f tEnd := by
  have h1 := eraseGo_calls_spec w.norErase w.ERASE_SIZE hok hE (tEnd - f) f tEnd s
    le_rfl hwrap
  unfold YieldingAsync.erase
  refine ⟨h1, ?_⟩
  rw [h1]
  simp [specSubranges]

/-- Claim C1 witness: the amended partition theorem applied to the
concrete recording driver with ERASE_SIZE 128 and the request (0, 256)
from the reference test suite. -/
theorem erase_exact_partition_witness :
    callsOf (YieldingAsync.erase (recWrapped 128) [] 0 256).2.1 =
        specSubranges 128 0 256 ∧
      (callsOf (YieldingAsync.erase (recWrapped 128) [] 0 256).2.1).length =
        numSubranges 128 0 256 :=
  erase_exact_partition (recWrapped 128) [] 0 256 (by decide) (by decide)
    (fun s0 a b => rfl) (by decide)

/-- Claim C2 (confirmed): when the wrapped driver's erase fails on
sub-range call k (1-indexed) after succeeding on the first k-1 calls,
exactly k erase calls reach the wrapped driver, the adapter's overall
result is exactly that failure value, the failing call is the last event
of the trace (so no yield follows it and no call comes after it), there
are exactly k-1 yields, and the wrapped driver's state keeps all k
received calls — the k-1 completed erases are not rolled back. -/
theorem erase_abort_on_failure {ε : Type} (e : ε) (E f tEnd k : Nat) (hE : 0 < E)
    (hk1 : 1 ≤ k) (hkN : k ≤ numSubranges E f tEnd) :
    (YieldingAsync.erase (failWrapped E k e) [] f tEnd).2.2 = Except.error e ∧
      (callsOf (YieldingAsync.erase (failWrapped E k e) [] f tEnd).2.1).length = k ∧
      yieldsOf (YieldingAsync.erase (failWrapped E k e) [] f tEnd).2.1 = k - 1 ∧
      (∃ m a b, (YieldingAsync.erase (failWrapped E k e) [] f tEnd).2.1 =
        m ++ [Event.eraseCall a b]) ∧
      (YieldingAsync.erase (failWrapped E k e) [] f tEnd).1 =
        callsOf (YieldingAsync.erase (failWrapped E k e) [] f tEnd).2.1 := by
  have hfg := failGo e E k hE (tEnd - f) f tEnd [] le_rfl (by simpa using hk1)
    (by simpa using hkN)
  have hES : (failWrapped (ε := ε) E k e).ERASE_SIZE = E := rfl
  unfold YieldingAsync.erase
  rw [hES]
  simpa using hfg

/-- Claim C2 witness: the abort-on-failure theorem at ERASE_SIZE 128,
request (0, 300), with the wrapped driver failing on its second call. -/
theorem erase_abort_on_failure_witness :
    (YieldingAsync.erase (failWrapped 128 2 ()) [] 0 300).2.2 = Except.error () ∧
      (callsOf (YieldingAsync.erase (failWrapped 128 2 ()) [] 0 300).2.1).length = 2 ∧
      yieldsOf (YieldingAsync.erase (failWrapped 128 2 ()) [] 0 300).2.1 = 2 - 1 ∧
      (∃ m a b, (YieldingAsync.erase (failWrapped 128 2 ()) [] 0 300).2.1 =
        m ++ [Event.eraseCall a b]) ∧
      (YieldingAsync.erase (failWrapped 128 2 ()) [] 0 300).1 =
        callsOf (YieldingAsync.erase (failWrapped 128 2 ()) [] 0 300).2.1 :=
  erase_abort_on_failure () 128 0 300 2 (by decide) (by decide) (by decide)

/-- Claim C5 (confirmed): an erase whose wrapped calls all succeed returns
success with a trace that is exactly the forwarded calls each immediately
followed by one yield (including after the last call), so the number of
yields and the number of forwarded calls both equal the number of
sub-ranges ceil((tEnd - f) / ERASE_SIZE). -/
theorem erase_yield_per_subrange {σ ε : Type} (w : Wrapped σ ε) (s : σ)
    (f tEnd : Nat) (hE : 0 < w.ERASE_SIZE)
    (hok : ∀ s0 a b, (w.norErase s0 a b).2 = Except.ok ()) :
    (YieldingAsync.erase w s f tEnd).2.2 = Except.ok () ∧
      (YieldingAsync.erase w s f tEnd).2.1 =
        withYields (callsOf (YieldingAsync.erase w s f tEnd).2.1) ∧
      (callsOf (YieldingAsync.erase w s f tEnd).2.1).length =
        numSubranges w.ERASE_SIZE f tEnd ∧
      yieldsOf (YieldingAsync.erase w s f tEnd).2.1 =
        numSubranges w.ERASE_SIZE f tEnd := by
  obtain ⟨h1, h2, h3⟩ := eraseGo_ok_shape w.norErase w.ERASE_SIZE hok hE
    (tEnd - f) f tEnd s le_rfl
  unfold YieldingAsync.erase
  refine ⟨h2, h1, h3, ?_⟩
  rw [h1, yieldsOf_withYields]
  exact h3

/-- Claim C5 witness: the yield-per-sub-range theorem at the concrete
recording driver with ERASE_SIZE 128 and the request (0, 256). -/
theorem erase_yield_per_subrange_witness :
    (YieldingAsync.erase (recWrapped 128) [] 0 256).2.2 = Except.ok () ∧
      (YieldingAsync.erase (recWrapped 128) [] 0 256).2.1 =
        withYields (callsOf (YieldingAsync.erase (recWrapped 128) [] 0 256).2.1) ∧
      (callsOf (YieldingAsync.erase (recWrapped 128) [] 0 256).2.1).length =
        numSubranges 128 0 256 ∧
      yieldsOf (YieldingAsync.erase (recWrapped 128) [] 0 256).2.1 =
        numSubranges 128 0 256 :=
  erase_yield_per_subrange (recWrapped 128) [] 0 256 (by decide) (fun s0 a b => rfl)

/-- Claim C7 (confirmed): on every capability operation the adapter's
result is the wrapped driver's result propagated unchanged (so every
failure value the adapter returns is the wrapped driver's failure value),
and every failure an erase returns is a failure value some wrapped erase
call produced; the adapter introduces no error of its own.  The adapter's
associated error type equals the wrapped driver's by construction of the
embedding (both are the same epsilon). -/
theorem error_propagation_unchanged {σ ε : Type} (w : Wrapped σ ε) (s : σ)
    (address offset : Nat) (buf wbuf rbuf words data bytes : List Nat)
    (ops : List I2cOp) :
    (YieldingAsync.i2cRead w s address buf).2.2.2 = (w.i2cRead s address buf).2.2 ∧
    (YieldingAsync.i2cWrite w s address buf).2.2 = (w.i2cWrite s address buf).2 ∧
    (YieldingAsync.i2cWriteRead w s address wbuf rbuf).2.2.2 =
      (w.i2cWriteRead s address wbuf rbuf).2.2 ∧
    (YieldingAsync.i2cTransaction w s address ops).2.2.2 =
      (w.i2cTransaction s address ops).2.2 ∧
    (YieldingAsync.spiTransfer w s rbuf wbuf).2.2.2 =
      (w.spiTransfer s rbuf wbuf).2.2 ∧
    (YieldingAsync.spiTransferInPlace w s words).2.2.2 =
      (w.spiTransferInPlace s words).2.2 ∧
    (YieldingAsync.spiFlush w s).2.2 = (w.spiFlush s).2 ∧
    (YieldingAsync.spiWrite w s data).2.2 = (w.spiWrite s data).2 ∧
    (YieldingAsync.spiRead w s data).2.2.2 = (w.spiRead s data).2.2 ∧
    (YieldingAsync.norRead w s offset bytes).2.2.2 =
      (w.norRead s offset bytes).2.2 ∧
    (YieldingAsync.norWrite w s offset bytes).2.2 =
      (w.norWrite s offset bytes).2 ∧
    (∀ f tEnd e, (YieldingAsync.erase w s f tEnd).2.2 = Except.error e →
      ∃ s0 a b, (w.norErase s0 a b).2 = Except.error e) := by
  refine ⟨?_, ?_, ?_, ?_, ?_, ?_, ?_, ?_, ?_, ?_, ?_, ?_⟩
  · rcases h : w.i2cRead s address buf with ⟨s1, b1, r⟩
    cases r <;> simp [YieldingAsync.i2cRead, h]
  · rcases h : w.i2cWrite s address buf with ⟨s1, r⟩
    cases r <;> simp [YieldingAsync.i2cWrite, h]
  · rcases h : w.i2cWriteRead s address wbuf rbuf with ⟨s1, b1, r⟩
    cases r <;> simp [YieldingAsync.i2cWriteRead, h]
  · rcases h : w.i2cTransaction s address ops with ⟨s1, o1, r⟩
    cases r <;> simp [YieldingAsync.i2cTransaction, h]
  · rcases h : w.spiTransfer s rbuf wbuf with ⟨s1, b1, r⟩
    cases r <;> simp [YieldingAsync.spiTransfer, h]
  · rcases h : w.spiTransferInPlace s words with ⟨s1, b1, r⟩
    cases r <;> simp [YieldingAsync.spiTransferInPlace, h]
  · rcases h : w.spiFlush s with ⟨s1, r⟩
    cases r <;> simp [YieldingAsync.spiFlush, h]
  · rcases h : w.spiWrite s data with ⟨s1, r⟩
    cases r <;> simp [YieldingAsync.spiWrite, h]
  · rcases h : w.spiRead s data with ⟨s1, b1, r⟩
    cases r <;> simp [YieldingAsync.spiRead, h]
  · rcases h : w.norRead s offset bytes with ⟨s1, b1, r⟩
    cases r <;> simp [YieldingAsync.norRead, h]
  · rcases h : w.norWrite s offset bytes with ⟨s1, r⟩
    cases r <;> simp [YieldingAsync.norWrite, h]
  · intro f tEnd e herr
    unfold YieldingAsync.erase at herr
    exact eraseGo_error_origin w.norErase w.ERASE_SIZE (tEnd - f) f tEnd s e herr

/-- Claim C7 witness: the propagation theorem applied to a concrete
failing driver, establishing that the error the adapter returned on an
erase originates from a wrapped erase call. -/
theorem error_propagation_unchanged_witness :
    ∃ s0 a b, ((failWrapped 1 1 ()).norErase s0 a b).2 = Except.error () :=
  (error_propagation_unchanged (failWrapped 1 1 ()) [] 0 0 [] [] [] [] [] []
    []).2.2.2.2.2.2.2.2.2.2.2 0 1 () rfl

/-- Claim C10 (confirmed): erase sub-range ends are computed in 32-bit
wrap-around arithmetic.  When every sub-range start g keeps g + ERASE_SIZE
at most 2^32 - 1, each forwarded sub-range (a, b) has b equal to the
mathematical min (a + ERASE_SIZE) tEnd, with a < b <= tEnd; at the
concrete start 4294967290 with ERASE_SIZE 128 the addition wraps modulo
2^32, the forwarded call is (4294967290, 122), and the bound a < b no
longer holds. -/
theorem erase_wrap_bounds {σ ε : Type} (w : Wrapped σ ε) (s : σ) (f tEnd : Nat)
    (hE : 0 < w.ERASE_SIZE)
    (hwrap : ∀ i, i < numSubranges w.ERASE_SIZE f tEnd →
      f + i * w.ERASE_SIZE + w.ERASE_SIZE ≤ 4294967295) :
    (∀ p ∈ callsOf (YieldingAsync.erase w s f tEnd).2.1,
        p.2 = min (p.1 + w.ERASE_SIZE) tEnd ∧ p.1 < p.2 ∧ p.2 ≤ tEnd) ∧
      callsOf (YieldingAsync.erase (recWrapped 128) [] 4294967290 4294967295).2.1 =
        [(4294967290, 122)] ∧
      (4294967290 + 128) % 4294967296 = 122 ∧
      ¬(4294967290 < 122) := by
  refine ⟨?_, by decide, by decide, by decide⟩
  unfold YieldingAsync.erase
  exact eraseGo_bounds w.norErase w.ERASE_SIZE hE (tEnd - f) f tEnd s le_rfl hwrap

/-- Claim C10 witness: the wrap-bounds theorem at the concrete recording
driver with ERASE_SIZE 128 and the request (0, 256). -/
theorem erase_wrap_bounds_witness :
    (∀ p ∈ callsOf (YieldingAsync.erase (recWrapped 128) [] 0 256).2.1,
        p.2 = min (p.1 + 128) 256 ∧ p.1 < p.2 ∧ p.2 ≤ 256) ∧
      callsOf (YieldingAsync.erase (recWrapped 128) [] 4294967290 4294967295).2.1 =
        [(4294967290, 122)] ∧
      (4294967290 + 128) % 4294967296 = 122 ∧
      ¬(4294967290 < 122) :=
  erase_wrap_bounds (recWrapped 128) [] 0 256 (by decide) (by decide)
